import Mathlib

/-!
Verification of the task event log and streaming subsystem of `bolt-events`
(`a2a_app/events.py`, `a2a_app/handlers.py`, `a2a_app/services.py`).

The Python code is shallowly embedded: Redis stream entries become a list of
`(position, raw data)` pairs with a monotonically increasing position counter
(Redis stream IDs are opaque, totally ordered, log-assigned identifiers; `Nat`
models exactly that), JSON-serialized event dictionaries become an
`EventData` structure plus a `RawData.corrupt` constructor for entries whose
`data` field does not decode, and the async generators become functions from
a static log state to the finite list of events they yield before blocking.
-/

namespace BoltEvents

/-- One entry of a message's `parts` list: `{type, text}`
    (`schemas.TextPart`). -/
structure MsgPart where
  ptype : String
  text : String
deriving DecidableEq

/-- A message dictionary `{messageId, role, parts}` (`schemas.Message` /
    the `message_data` dict built in `TaskService.create`). -/
structure Msg where
  messageId : Option String
  role : String
  parts : List MsgPart
deriving DecidableEq

/-- An event dictionary as published to the log. The source keeps events as
    open dicts; the fields the core reads (`type`, `taskId`, `message`,
    `artifact`) are explicit and everything else is carried opaquely in
    `payload`. A missing key is `none` (Python `dict.get` returning `None`,
    which is falsy exactly when the key is absent or empty). -/
structure EventData where
  type : String
  taskId : Option String
  message : Option Msg
  artifact : Option String
  payload : String
deriving DecidableEq

/-- The stored `{data: json.dumps(event)}` field of one stream entry.
    `RedisEventPublisher.publish` always stores a well-formed serialization
    (`ok`); `corrupt` models an entry whose bytes `json.loads` rejects. -/
inductive RawData where
  | ok (e : EventData)
  | corrupt
deriving DecidableEq

/-- Decoding a stored entry (`json.loads(fields[b"data"].decode())`). -/
def decodeRaw : RawData → Option EventData
  | RawData.ok e => some e
  | RawData.corrupt => none

/-- One per-task Redis stream: entries keyed by strictly increasing
    positions, plus the next position the store will assign. Real stream IDs
    are `ms-seq` pairs; only their total order matters to the code, so
    positions are naturals starting at 1 (every real ID sorts after the
    `XREAD` start token `0`). -/
structure EventLog where
  entries : List (Nat × RawData)
  nextId : Nat
deriving DecidableEq

/-- A fresh, empty stream. -/
def emptyLog : EventLog := ⟨[], 1⟩

/-- The `maxlen=1000` bound `publish` passes to `XADD`. -/
def MAXLEN : Nat := 1000

/-- Models `XADD key <entry> MAXLEN ~ maxlen`: appends the entry under a fresh
    position that sorts after every previously assigned one, then trims the
    oldest entries down to `maxlen`. (The `approximate=True` flag lets Redis
    keep slightly more than `maxlen`; the exact trim modeled here is one
    legal behavior and is never exercised by logs within the bound.) -/
def xadd (s : EventLog) (d : RawData) (maxlen : Nat) : EventLog × Nat :=
  let pos := s.nextId
  let appended := s.entries ++ [(pos, d)]
  let trimmed :=
    if maxlen < appended.length then appended.drop (appended.length - maxlen)
    else appended
  (⟨trimmed, pos + 1⟩, pos)

/-- Models `RedisEventPublisher.publish`: serializes the event dict (always
    succeeds for dict events) and `XADD`s it with `maxlen=1000`, returning
    the assigned position. -/
def publish (s : EventLog) (e : EventData) : EventLog × Nat :=
  xadd s (RawData.ok e) MAXLEN

/-- A sequence of `publish` calls on the same task, returning the final log
    and the list of assigned positions in call order. -/
def publishAll (s : EventLog) : List EventData → EventLog × List Nat
  | [] => (s, [])
  | e :: rest =>
    let r1 := publish s e
    let r2 := publishAll r1.1 rest
    (r2.1, r1.2 :: r2.2)

/-- Entries with position strictly greater than `cursor`, in log order. -/
def entriesAfter (s : EventLog) (cursor : Nat) : List (Nat × RawData) :=
  s.entries.filter fun q => cursor < q.1

/-- Shared read-loop body of `subscribe` / `get_events_since` /
    `get_all_events`: decode each entry with `json.loads`, attach its
    position as `_id`, and yield it. The `except` clauses around these loops
    catch only `RedisError`, so a `json.JSONDecodeError` on a corrupt entry
    propagates: entries already decoded were yielded, the corrupt entry and
    everything after it are not, and the returned flag records that the read
    was aborted by the exception. -/
def runRead : List (Nat × RawData) → List (Nat × EventData) × Bool
  | [] => ([], false)
  | (p, RawData.ok e) :: rest =>
    let r := runRead rest
    ((p, e) :: r.1, r.2)
  | (_, RawData.corrupt) :: _ => ([], true)

/-- The start-ID argument `subscribe` passes to `XREAD`: either a plain ID
    (the initial `"0"`), or the `"(<id>"` string it builds for resumption
    and after every yielded message. -/
inductive ReadId where
  | plain (p : Nat)
  | exclusiveMark (p : Nat)
deriving DecidableEq

/-- Models `XREAD COUNT count STREAMS key id`: for a plain ID, Redis returns up to
    `count` entries with position strictly greater than it (the `XREAD`
    start ID is exclusive by definition). The `"("` exclusive-range prefix
    is accepted only by the `XRANGE` family of commands; `XREAD` parses its
    ID strictly and rejects `"(<id>"` with an `Invalid stream ID` response
    error (a `RedisError`). -/
def xreadIds (s : EventLog) (i : ReadId) (count : Nat) :
    Except Unit (List (Nat × RawData)) :=
  match i with
  | ReadId.plain p => Except.ok ((entriesAfter s p).take count)
  | ReadId.exclusiveMark _ => Except.error ()

/-- Models `RedisEventSubscriber.subscribe` run against a static log: the events it
    yields before blocking (or spinning) forever. With `last_event_id`
    supplied, the very first `XREAD` uses the rejected `"(<id>"` form; the
    `RedisError` is caught, logged, slept on, and the identical call is
    retried forever, so nothing is ever yielded. Without it, the first
    `XREAD` uses `"0"` and succeeds (one batch, `count=100`), after which
    the cursor has the `"("` form and every further read errors the same
    way. A corrupt entry inside the successful batch aborts the generator
    (flag `true`). -/
def subscribeYields (s : EventLog) (lastEventId : Option Nat) :
    List (Nat × EventData) × Bool :=
  match lastEventId with
  | some p =>
    match xreadIds s (ReadId.exclusiveMark p) 100 with
    | Except.error _ => ([], false)
    | Except.ok batch => runRead batch
  | none =>
    match xreadIds s (ReadId.plain 0) 100 with
    | Except.error _ => ([], false)
    | Except.ok batch => runRead batch

/-- Models `RedisEventSubscriber.get_events_since`, i.e. `XRANGE key (after + COUNT
    limit` — the `"("` exclusive bound is valid in `XRANGE`, so this returns
    up to `limit` entries strictly after `after`, decoded in order. -/
def get_events_since (s : EventLog) (afterEventId : Nat) (limit : Nat) :
    List (Nat × EventData) × Bool :=
  runRead ((entriesAfter s afterEventId).take limit)

/-- Models `RedisEventSubscriber.get_all_events`, i.e. `XRANGE key - + COUNT limit`. -/
def get_all_events (s : EventLog) (limit : Nat) :
    List (Nat × EventData) × Bool :=
  runRead (s.entries.take limit)

/-- State of one consumer group on one task's stream: the pending-entries
    list (delivered but unacknowledged positions, tagged with the consumer
    they were delivered to) and the group's last-delivered position.
    `_ensure_group` creates the group at ID `"0"`, i.e. `⟨[], 0⟩`. -/
structure GroupState where
  pel : List (Nat × String)
  lastDelivered : Nat
deriving DecidableEq

/-- A freshly created group (`XGROUP CREATE ... 0 MKSTREAM`). -/
def freshGroup : GroupState := ⟨[], 0⟩

/-- The generator body of `RedisConsumerGroup.consume` interacting with a
    caller that resumes it `requests` times: for each delivered entry the
    generator decodes it, yields it, and — only once the caller asks for the
    next event — `XACK`s it. Returns (events yielded, positions acked,
    whether a corrupt entry aborted the generator with a decode error). The
    last event delivered before the caller stops iterating is never acked;
    a caller that keeps iterating past the batch acks everything. -/
def consumeSteps : List (Nat × RawData) → Nat → List (Nat × EventData) × List Nat × Bool
  | _, 0 => ([], [], false)
  | [], _ => ([], [], false)
  | (p, RawData.ok e) :: rest, Nat.succ r =>
    if r = 0 then ([(p, e)], [], false)
    else
      let next := consumeSteps rest r
      ((p, e) :: next.1, p :: next.2.1, next.2.2)
  | (_, RawData.corrupt) :: _, Nat.succ _ => ([], [], true)

/-- Models `RedisConsumerGroup.consume` run against a static log for one
    `XREADGROUP ... COUNT 10 STREAMS key >` batch: every new (never
    delivered) entry of the batch is recorded as pending for this consumer
    at read time; the generator then yields/acks per `consumeSteps`. With
    `requests = 0` the generator never starts, so nothing is read. Returns
    the yielded events and the updated group state. (The source loops for
    further batches while the caller keeps iterating; one batch covers every
    log of at most `count = 10` undelivered entries.) -/
def consume (s : EventLog) (g : GroupState) (consumer : String)
    (requests : Nat) : List (Nat × EventData) × GroupState :=
  if requests = 0 then ([], g)
  else
    let newEntries := (entriesAfter s g.lastDelivered).take 10
    let stepped := consumeSteps newEntries requests
    let acked := stepped.2.1
    let pel' := (g.pel ++ newEntries.map fun q => (q.1, consumer)).filter
      fun q => decide (q.1 ∉ acked)
    let last' := (newEntries.map Prod.fst).foldl max g.lastDelivered
    (stepped.1, ⟨pel', last'⟩)

/-- Models `RedisConsumerGroup.get_pending_events`, i.e. `XPENDING key group - + count`,
    returning `(position, consumer)` for up to `count` pending entries. The
    surrounding `except RedisError` logs a transport failure and returns the
    empty list; `transportError` selects that path. -/
def get_pending_events (g : GroupState) (count : Nat)
    (transportError : Bool) : List (Nat × String) :=
  if transportError then []
  else g.pel.take count

/-- The set `TERMINAL_STATES` from `handlers.py` / `services.py`. -/
def TERMINAL_STATES : List String := ["completed", "failed", "canceled", "rejected"]

/-- Models `handlers._get_terminal_state`: maps a `task.*` event type to the
    terminal task state it names, and anything else to `None`
    (`event_type.startswith("task.")` then `removeprefix`, expressed on the
    underlying character sequences). -/
def get_terminal_state (eventType : String) : Option String :=
  if "task.".data.isPrefixOf eventType.data then
    let state : String := ⟨eventType.data.drop 5⟩
    if state ∈ TERMINAL_STATES then some state else none
  else none

/-- The stored task record (`models.A2ATask` as read/written through
    `TaskService`). -/
structure TaskRec where
  task_id : String
  context_id : String
  status_state : String
  status_message : Option Msg
  history : List Msg
  artifacts : List String
deriving DecidableEq

/-- Models `TaskService.update_status`: overwrites `status_state` and
    `status_message` unconditionally for the row. -/
def update_status (t : TaskRec) (state : String) (message : Option Msg) : TaskRec :=
  { t with status_state := state, status_message := message }

/-- Models `TaskService.append_message`: appends one message to `history`. -/
def append_message (t : TaskRec) (m : Msg) : TaskRec :=
  { t with history := t.history ++ [m] }

/-- Models `TaskService.add_artifact`: appends one artifact. -/
def add_artifact (t : TaskRec) (a : String) : TaskRec :=
  { t with artifacts := t.artifacts ++ [a] }

/-- Models `TaskService.create`: a fresh task in state `submitted` whose history
    holds exactly the normalized submission message; `freshMsgId` stands for
    the generated `msg-<uuid>` used when the submission carries no
    `messageId`. -/
def createTask (taskId ctxId : String) (message : Msg) (freshMsgId : String) : TaskRec :=
  { task_id := taskId
    context_id := ctxId
    status_state := "submitted"
    status_message := none
    history := [{ messageId := some (message.messageId.getD freshMsgId)
                  role := message.role
                  parts := message.parts }]
    artifacts := [] }

/-- The stored-record update `_process_task_event` performs for one event
    (after stamping; none of the branches read `taskId`): append to history
    for `task.message` with a (truthy) message, append an artifact for
    `task.artifact`, `update_status` — applied unconditionally — for any
    event type naming a terminal state, and no change otherwise. -/
def applyEvent (t : TaskRec) (e : EventData) : TaskRec :=
  if e.type = "task.message" then
    match e.message with
    | some m => append_message t m
    | none => t
  else if e.type = "task.artifact" then
    match e.artifact with
    | some a => add_artifact t a
    | none => t
  else
    match get_terminal_state e.type with
    | some st => update_status t st e.message
    | none => t

/-- Models `handlers._process_task_event`: stamps the task ID onto the event,
    publishes it to the task's stream, then updates the stored record per
    `applyEvent`. -/
def process_task_event (s : EventLog) (t : TaskRec) (e : EventData) :
    EventLog × TaskRec :=
  let e' := { e with taskId := some t.task_id }
  ((publish s e').1, applyEvent t e')

/-- Processing a sequence of events through `_process_task_event`. -/
def process_all (s : EventLog) (t : TaskRec) : List EventData → EventLog × TaskRec
  | [] => (s, t)
  | e :: rest =>
    let r := process_task_event s t e
    process_all r.1 r.2 rest

/-- Outcome of `handle_tasks_cancel`: `LookupError`, the `ValueError`
    raised on a terminal state (mapped by the RPC layer to the
    `invalid params` code `-32602`), or success with the updated task. -/
inductive CancelResult where
  | notFound
  | terminalStateError (state : String)
  | ok (t : TaskRec)
deriving DecidableEq

/-- Models `handlers.handle_tasks_cancel` acting on the stored record for the
    given ID (paired with the record left in the store afterwards). -/
def handle_tasks_cancel (stored : Option TaskRec) :
    CancelResult × Option TaskRec :=
  match stored with
  | none => (CancelResult.notFound, none)
  | some task =>
    if task.status_state ∈ TERMINAL_STATES then
      (CancelResult.terminalStateError task.status_state, some task)
    else
      let updated := update_status task "canceled" none
      (CancelResult.ok updated, some updated)

/-- Python list slicing `l[i:]` for an arbitrary (possibly negative) start
    index: a negative index counts from the end and clamps at 0, and
    `-0 = 0`, so `l[-0:]` is the whole list. -/
def pySliceFrom {α : Type} (l : List α) (i : Int) : List α :=
  if i < 0 then l.drop (max ((l.length : Int) + i) 0).toNat
  else l.drop i.toNat

/-- Outcome of `handle_tasks_get`. -/
inductive GetResult where
  | notFound
  | ok (t : TaskRec)
deriving DecidableEq

/-- Models `handlers.handle_tasks_get`: looks the task up and, when
    `historyLength` is supplied, replaces `history` with
    `history[-historyLength:]`. -/
def handle_tasks_get (stored : Option TaskRec) (historyLength : Option Int) :
    GetResult :=
  match stored with
  | none => GetResult.notFound
  | some task =>
    match historyLength with
    | none => GetResult.ok task
    | some n => GetResult.ok { task with history := pySliceFrom task.history (-n) }

/-- Tags a list of decoded events as well-formed raw entries. -/
def okRaw (l : List (Nat × EventData)) : List (Nat × RawData) :=
  l.map fun q => (q.1, RawData.ok q.2)

/-- Pairs a list of events with consecutive positions starting at `p` —
    the positions `publishAll` assigns when no trimming occurs. -/
def withPositions : Nat → List EventData → List (Nat × EventData)
  | _, [] => []
  | p, e :: rest => (p, e) :: withPositions (p + 1) rest

/-- A payload-only event used as concrete sample data. -/
def mkEvent (ty : String) (pl : String) : EventData :=
  { type := ty, taskId := none, message := none, artifact := none, payload := pl }

/-- Sample event 1. -/
def eA : EventData := mkEvent "update" "a"

/-- Sample event 2. -/
def eB : EventData := mkEvent "update" "b"

/-- Sample event 3. -/
def eC : EventData := mkEvent "task.completed" "c"

/-- Sample submission message. -/
def msg0 : Msg := { messageId := some "m0", role := "user", parts := [⟨"text", "hi"⟩] }

/-- Sample agent message. -/
def msg1 : Msg := { messageId := none, role := "agent", parts := [⟨"text", "chunk"⟩] }

/-- A task whose stored state is the terminal state `completed`. -/
def completedTask : TaskRec :=
  { task_id := "t1", context_id := "c1", status_state := "completed"
    status_message := none, history := [msg0], artifacts := [] }

/-- A task in the initial state `submitted`. -/
def submittedTask : TaskRec :=
  { task_id := "t2", context_id := "c2", status_state := "submitted"
    status_message := none, history := [msg0], artifacts := [] }

/-- A `task.failed` event. -/
def failedEvent : EventData := mkEvent "task.failed" ""

/-- A `task.working` event, as emitted by the agent executor. -/
def workingEvent : EventData := mkEvent "task.working" ""

/-- A `task.message` event carrying an agent message. -/
def messageEvent (m : Msg) : EventData :=
  { type := "task.message", taskId := none, message := some m, artifact := none,
    payload := "" }

/-- A `task.completed` event. -/
def completedEvent : EventData := mkEvent "task.completed" ""

/-- A log holding a well-formed entry, a corrupt entry, and another
    well-formed entry. -/
def corruptLog : EventLog :=
  ⟨[(1, RawData.ok eA), (2, RawData.corrupt), (3, RawData.ok eB)], 4⟩

/-! ## Helper lemmas -/

theorem withPositions_map_fst (es : List EventData) :
    ∀ p, (withPositions p es).map Prod.fst = List.range' p es.length := by
  induction es with
  | nil => intro p; rfl
  | cons e rest ih =>
    intro p
    simp [withPositions, List.range'_succ, ih]

theorem withPositions_map_snd (es : List EventData) :
    ∀ p, (withPositions p es).map Prod.snd = es := by
  induction es with
  | nil => intro p; rfl
  | cons e rest ih =>
    intro p
    simp [withPositions, ih]

theorem withPositions_length (es : List EventData) (p : Nat) :
    (withPositions p es).length = es.length := by
  have h := congrArg List.length (withPositions_map_snd es p)
  simpa using h

theorem okRaw_length (l : List (Nat × EventData)) : (okRaw l).length = l.length := by
  simp [okRaw]

theorem runRead_okRaw (l : List (Nat × EventData)) : runRead (okRaw l) = (l, false) := by
  induction l with
  | nil => rfl
  | cons q rest ih => simp [okRaw, runRead] at ih ⊢; simp [ih]

theorem publishAll_eq (es : List EventData) :
    ∀ s : EventLog, s.entries.length + es.length ≤ MAXLEN →
    publishAll s es =
      (⟨s.entries ++ okRaw (withPositions s.nextId es), s.nextId + es.length⟩,
        (withPositions s.nextId es).map Prod.fst) := by
  induction es with
  | nil =>
    intro s h
    simp [publishAll, okRaw, withPositions]
  | cons e rest ih =>
    intro s h
    have hlen : (s.entries ++ [(s.nextId, RawData.ok e)]).length ≤ MAXLEN := by
      simp only [List.length_append, List.length_cons, List.length_nil] at h ⊢
      omega
    have hdrop : ¬ MAXLEN < s.entries.length + 1 := by
      simp only [List.length_append, List.length_cons, List.length_nil] at hlen
      omega
    have hstep : publish s e =
        (⟨s.entries ++ [(s.nextId, RawData.ok e)], s.nextId + 1⟩, s.nextId) := by
      simp [publish, xadd, hdrop]
    have hrec := ih ⟨s.entries ++ [(s.nextId, RawData.ok e)], s.nextId + 1⟩ (by
      simp only [List.length_append, List.length_cons, List.length_nil] at h ⊢
      omega)
    simp only [publishAll, hstep, hrec, withPositions, okRaw, List.map_cons,
      List.append_assoc, List.singleton_append, Prod.mk.injEq, EventLog.mk.injEq,
      List.length_cons]
    exact ⟨⟨trivial, by omega⟩, trivial⟩

theorem publish_small (s : EventLog) (e : EventData)
    (h : s.entries.length < MAXLEN) :
    publish s e = (⟨s.entries ++ [(s.nextId, RawData.ok e)], s.nextId + 1⟩, s.nextId) := by
  have hd : ¬ MAXLEN < s.entries.length + 1 := by omega
  simp [publish, xadd, hd]

theorem applyEvent_task_id (t : TaskRec) (e : EventData) :
    (applyEvent t e).task_id = t.task_id := by
  unfold applyEvent
  by_cases h1 : e.type = "task.message"
  · cases hm : e.message <;> simp [h1, hm, append_message]
  · by_cases h2 : e.type = "task.artifact"
    · cases ha : e.artifact <;> simp [h1, h2, ha, add_artifact]
    · cases hg : get_terminal_state e.type <;> simp [h1, h2, hg, update_status]

theorem process_all_fst (es : List EventData) : ∀ (s : EventLog) (t : TaskRec),
    (process_all s t es).1 =
      (publishAll s (es.map fun e => { e with taskId := some t.task_id })).1 := by
  induction es with
  | nil => intro s t; rfl
  | cons e rest ih =>
    intro s t
    have hstep : process_all s t (e :: rest) =
        process_all (publish s { e with taskId := some t.task_id }).1
          (applyEvent t { e with taskId := some t.task_id }) rest := rfl
    rw [hstep, ih, applyEvent_task_id]
    rfl

theorem process_all_snd (es : List EventData) : ∀ (s : EventLog) (t : TaskRec),
    (process_all s t es).2 =
      es.foldl (fun t e => applyEvent t { e with taskId := some t.task_id }) t := by
  induction es with
  | nil => intro s t; rfl
  | cons e rest ih =>
    intro s t
    simp only [process_all, process_task_event, List.foldl_cons]
    exact ih _ _

theorem withPositions_fst_ge (es : List EventData) :
    ∀ p q, q ∈ withPositions p es → p ≤ q.1 := by
  induction es with
  | nil => intro p q hq; simp [withPositions] at hq
  | cons e rest ih =>
    intro p q hq
    simp only [withPositions, List.mem_cons] at hq
    rcases hq with hq | hq
    · simp [hq]
    · exact Nat.le_of_succ_le (ih (p + 1) q hq)

/-! ## Claim theorems -/

/-- C2: for every sequence of `n` `publish` calls on the same task (within
the retention bound, so that nothing is trimmed), the assigned log
positions are strictly increasing — each newly assigned position sorts
after all previously assigned ones — and a full replay via
`get_all_events` returns the `n` events in the order they were appended,
each paired with its position, with no decode abort. -/
theorem publish_monotonic_and_replay (es : List EventData)
    (h : es.length ≤ MAXLEN) :
    List.Pairwise (· < ·) (publishAll emptyLog es).2 ∧
    get_all_events (publishAll emptyLog es).1 MAXLEN = (withPositions 1 es, false) ∧
    (get_all_events (publishAll emptyLog es).1 MAXLEN).1.map Prod.snd = es := by
  have hp := publishAll_eq es emptyLog (by simpa [emptyLog] using h)
  have hids : (publishAll emptyLog es).2 = List.range' 1 es.length := by
    rw [hp]; exact withPositions_map_fst es 1
  have hreplay :
      get_all_events (publishAll emptyLog es).1 MAXLEN = (withPositions 1 es, false) := by
    rw [hp]
    show runRead ((okRaw (withPositions 1 es)).take MAXLEN) = (withPositions 1 es, false)
    rw [List.take_of_length_le (by rw [okRaw_length, withPositions_length]; exact h)]
    exact runRead_okRaw (withPositions 1 es)
  refine ⟨?_, hreplay, ?_⟩
  · rw [hids]; exact List.pairwise_lt_range' 1 es.length
  · rw [hreplay]; exact withPositions_map_snd es 1

/-- C2 witness: three concrete publishes. -/
theorem publish_monotonic_and_replay_witness :
    ([eA, eB, eC].length ≤ MAXLEN) ∧
    List.Pairwise (· < ·) (publishAll emptyLog [eA, eB, eC]).2 ∧
    (get_all_events (publishAll emptyLog [eA, eB, eC]).1 MAXLEN).1.map Prod.snd =
      [eA, eB, eC] :=
  ⟨by decide, (publish_monotonic_and_replay [eA, eB, eC] (by decide)).1,
    (publish_monotonic_and_replay [eA, eB, eC] (by decide)).2.2⟩

/-- C1 (code bug): after publishing three events to a fresh task the
assigned positions are `[1, 2, 3]`, but `subscribe` resumed from the 2nd
event's position yields nothing at all — it passes the start ID `"(<id>"`
to `XREAD`, which rejects that form (the `(` exclusive prefix is an
`XRANGE`-family syntax), and the resulting `RedisError` is caught, slept
on, and retried with the same cursor forever. The `XRANGE`-based
`get_events_since` from the same position does return exactly the 3rd
event, which is the behavior the claim — and the repository's own
`test_subscribe_with_last_event_id` — requires of `subscribe`. -/
theorem subscribe_resume_yields_nothing :
    (publishAll emptyLog [eA, eB, eC]).2 = [1, 2, 3] ∧
    subscribeYields (publishAll emptyLog [eA, eB, eC]).1 (some 2) = ([], false) ∧
    get_events_since (publishAll emptyLog [eA, eB, eC]).1 2 1000 =
      ([(3, eC)], false) := by
  decide

/-- C3 counterexample: a `task.failed` event processed for a task whose
stored state is the terminal state `completed` overwrites the state with
`failed` — a transition out of a terminal state is applied, because
`_process_task_event` calls `update_status` unconditionally for any
terminal-typed event. -/
theorem terminal_state_overwritten_cex :
    completedTask.status_state ∈ TERMINAL_STATES ∧
    (process_task_event emptyLog completedTask failedEvent).2.status_state = "failed" ∧
    (process_task_event emptyLog completedTask failedEvent).2.status_state ≠
      completedTask.status_state := by
  decide

/-- C3 amended: for a task whose stored state is terminal, processing any
further event whose type does not name a terminal state leaves the state
unchanged; but the guard exists only in `handle_tasks_cancel`, so an event
of type `task.completed` / `task.failed` / `task.canceled` /
`task.rejected` overwrites even a terminal state (as the counterexample
shows). -/
theorem terminal_state_stable_without_terminal_event (s : EventLog)
    (t : TaskRec) (e : EventData)
    (_h0 : t.status_state ∈ TERMINAL_STATES)
    (hev : get_terminal_state e.type = none) :
    (process_task_event s t e).2.status_state = t.status_state := by
  unfold process_task_event applyEvent
  by_cases h1 : e.type = "task.message"
  · cases hm : e.message <;> simp [h1, hm, append_message]
  · by_cases h2 : e.type = "task.artifact"
    · cases ha : e.artifact <;> simp [h1, h2, ha, add_artifact]
    · simp [h1, h2, hev]

/-- C3 amended witness: a `task.working` event arriving for a completed
task leaves the state `completed`. -/
theorem terminal_state_stable_without_terminal_event_witness :
    completedTask.status_state ∈ TERMINAL_STATES ∧
    get_terminal_state workingEvent.type = none ∧
    (process_task_event emptyLog completedTask workingEvent).2.status_state =
      completedTask.status_state :=
  ⟨by decide, by decide,
    terminal_state_stable_without_terminal_event emptyLog completedTask workingEvent
      (by decide) (by decide)⟩

/-- C4 counterexample: processing a `task.working` event for a freshly
submitted task does not transition the stored state to `working` — the
state stays `submitted`, because `_get_terminal_state` maps `task.working`
to `None` (`working` is not a terminal state) and no other branch of
`_process_task_event` touches the status. -/
theorem working_event_cex :
    (process_task_event emptyLog submittedTask workingEvent).2.status_state =
      "submitted" ∧
    (process_task_event emptyLog submittedTask workingEvent).2.status_state ≠
      "working" := by
  decide

/-- C4 amended: processing a `task.working` event publishes it to the log
but leaves the stored task record — in particular its status state —
completely unchanged; only `task.message`, `task.artifact` and the four
terminal-typed events mutate the record. -/
theorem working_event_leaves_task_unchanged (s : EventLog) (t : TaskRec)
    (e : EventData) (h : e.type = "task.working") :
    (process_task_event s t e).2 = t := by
  have hterm : get_terminal_state "task.working" = none := by decide
  unfold process_task_event applyEvent
  simp [h, hterm]

/-- C4 amended witness: the concrete executor-emitted `task.working`
event. -/
theorem working_event_leaves_task_unchanged_witness :
    workingEvent.type = "task.working" ∧
    (process_task_event emptyLog submittedTask workingEvent).2 = submittedTask :=
  ⟨by decide,
    working_event_leaves_task_unchanged emptyLog submittedTask workingEvent (by decide)⟩

/-- C5 (Scenario A): appending `task.working`, `task.message` (with an agent
message) and `task.completed` to a freshly created task and processing each
event gives a full replay of exactly those 3 events in order (each stamped
with the task ID and its position), a final stored state of `completed`,
and a history of exactly 2 messages: the normalized submission plus the one
appended agent message. -/
theorem scenario_a_replay_state_history (m0 m1 : Msg) (tid ctx fresh : String) :
    get_all_events
        (process_all emptyLog (createTask tid ctx m0 fresh)
          [workingEvent, messageEvent m1, completedEvent]).1 MAXLEN =
      (withPositions 1
        [{ workingEvent with taskId := some tid },
         { messageEvent m1 with taskId := some tid },
         { completedEvent with taskId := some tid }], false) ∧
    (process_all emptyLog (createTask tid ctx m0 fresh)
        [workingEvent, messageEvent m1, completedEvent]).2.status_state =
      "completed" ∧
    (process_all emptyLog (createTask tid ctx m0 fresh)
        [workingEvent, messageEvent m1, completedEvent]).2.history =
      [{ messageId := some (m0.messageId.getD fresh), role := m0.role,
         parts := m0.parts }, m1] ∧
    (process_all emptyLog (createTask tid ctx m0 fresh)
        [workingEvent, messageEvent m1, completedEvent]).2.history.length = 2 := by
  have hsnd : (process_all emptyLog (createTask tid ctx m0 fresh)
      [workingEvent, messageEvent m1, completedEvent]).2 =
      [workingEvent, messageEvent m1, completedEvent].foldl
        (fun t e => applyEvent t { e with taskId := some t.task_id })
        (createTask tid ctx m0 fresh) :=
    process_all_snd _ _ _
  have h1 : (process_all emptyLog (createTask tid ctx m0 fresh)
      [workingEvent, messageEvent m1, completedEvent]).1 =
      (publishAll emptyLog
        ([workingEvent, messageEvent m1, completedEvent].map
          fun e => { e with taskId := some tid })).1 :=
    process_all_fst _ _ _
  have h2 := publishAll_eq
    ([workingEvent, messageEvent m1, completedEvent].map
      fun e => { e with taskId := some tid })
    emptyLog (by simp [emptyLog, MAXLEN])
  refine ⟨?_, ?_, ?_, ?_⟩
  · rw [h1, h2]
    simp only [get_all_events, emptyLog, List.nil_append]
    have hl : (okRaw (withPositions 1
        ([workingEvent, messageEvent m1, completedEvent].map
          fun e => { e with taskId := some tid }))).length ≤ MAXLEN := by
      rw [okRaw_length, withPositions_length]
      simp [MAXLEN]
    rw [List.take_of_length_le hl, runRead_okRaw]
    simp only [List.map_cons, List.map_nil]
  · rw [hsnd]; rfl
  · rw [hsnd]; rfl
  · rw [hsnd]; rfl

/-- C6: cancelling a task whose state is terminal fails with the
distinguishable precondition-violation error (`ValueError`, which the RPC
layer maps to the invalid-params code) and leaves the stored task
unchanged; cancelling a task whose state is non-terminal succeeds and
stores state `canceled`. -/
theorem cancel_terminal_guard (t : TaskRec) :
    (t.status_state ∈ TERMINAL_STATES →
      handle_tasks_cancel (some t) =
        (CancelResult.terminalStateError t.status_state, some t)) ∧
    (t.status_state ∉ TERMINAL_STATES →
      handle_tasks_cancel (some t) =
        (CancelResult.ok { t with status_state := "canceled", status_message := none },
          some { t with status_state := "canceled", status_message := none }) ∧
      ({ t with status_state := "canceled", status_message := none } :
          TaskRec).status_state = "canceled") := by
  constructor
  · intro h
    simp [handle_tasks_cancel, h]
  · intro h
    simp [handle_tasks_cancel, h, update_status]

/-- C6 witness: cancel on a `completed` task is refused with the task left
intact; cancel on a `submitted` task stores `canceled`. -/
theorem cancel_terminal_guard_witness :
    handle_tasks_cancel (some completedTask) =
      (CancelResult.terminalStateError completedTask.status_state,
        some completedTask) ∧
    handle_tasks_cancel (some submittedTask) =
      (CancelResult.ok
          { submittedTask with status_state := "canceled", status_message := none },
        some
          { submittedTask with status_state := "canceled", status_message := none }) :=
  ⟨(cancel_terminal_guard completedTask).1 (by decide),
    ((cancel_terminal_guard submittedTask).2 (by decide)).1⟩

/-- C7 counterexample: in a log holding a well-formed entry, a corrupt
entry and another well-formed entry, `get_all_events` yields only the first
entry and aborts with the decode error: the remaining well-formed entry is
not returned, so a single malformed entry does abort the surrounding read
instead of being skipped with a warning. -/
theorem malformed_entry_cex :
    get_all_events corruptLog MAXLEN = ([(1, eA)], true) ∧
    (3, eB) ∉ (get_all_events corruptLog MAXLEN).1 := by
  decide

/-- C7 amended: for every read of a task's log (all of `subscribe`'s batch
loop, `get_events_since` and `get_all_events` decode entries through
`runRead`), the first malformed entry aborts the read with a decode error:
the well-formed entries before it are still yielded, but the malformed
entry and every entry after it — well-formed or not — are dropped. No
entry is ever skipped-and-continued. -/
theorem malformed_entry_aborts (pre : List (Nat × EventData)) (p : Nat)
    (rest : List (Nat × RawData)) :
    runRead (okRaw pre ++ (p, RawData.corrupt) :: rest) = (pre, true) := by
  induction pre with
  | nil => rfl
  | cons q t ih => simp [okRaw, runRead] at ih ⊢; simp [ih]

theorem consumeSteps_okRaw (l : List (Nat × EventData)) :
    ∀ r : Nat, 1 ≤ r →
    consumeSteps (okRaw l) r =
      (l.take r, ((l.take (r - 1)).map Prod.fst, false)) := by
  induction l with
  | nil =>
    intro r hr
    rcases r with _ | r0
    · omega
    · simp [okRaw, consumeSteps]
  | cons q rest ih =>
    intro r hr
    rcases r with _ | r0
    · omega
    rcases r0 with _ | r1
    · simp [okRaw, consumeSteps]
    · have ihh := ih (r1 + 1) (by omega)
      simp only [okRaw, List.map_cons] at ihh ⊢
      simp [consumeSteps, ihh]

theorem pel_filter_drop (c : String) (l : List (Nat × EventData)) :
    ∀ k : Nat, (l.map Prod.fst).Nodup →
    ((l.map fun q => (q.1, c)).filter
        fun x => decide (x.1 ∉ (l.take k).map Prod.fst)) =
      (l.drop k).map fun q => (q.1, c) := by
  induction l with
  | nil => intro k h; simp
  | cons q rest ih =>
    intro k hnd
    simp only [List.map_cons, List.nodup_cons] at hnd
    cases k with
    | zero => simp
    | succ k0 =>
      simp only [List.take_succ_cons, List.drop_succ_cons, List.map_cons,
        List.filter_cons]
      have hhead : (decide (q.1 ∉ q.1 :: (rest.take k0).map Prod.fst)) = false := by
        simp
      rw [hhead]
      have hcong : ∀ x ∈ rest.map fun q => (q.1, c),
          (decide (x.1 ∉ q.1 :: (rest.take k0).map Prod.fst)) =
          (decide (x.1 ∉ (rest.take k0).map Prod.fst)) := by
        intro x hx
        rcases List.mem_map.mp hx with ⟨y, hy, rfl⟩
        have hne : y.1 ≠ q.1 := by
          intro hEq
          exact hnd.1 (hEq ▸ List.mem_map_of_mem Prod.fst hy)
        exact decide_eq_decide.mpr (by simp [List.mem_cons, hne])
      rw [List.filter_congr hcong, ih k0 hnd.2]
      simp

theorem entriesAfter_publishAll_zero (es : List EventData)
    (h : es.length ≤ MAXLEN) :
    entriesAfter (publishAll emptyLog es).1 0 = okRaw (withPositions 1 es) := by
  rw [publishAll_eq es emptyLog (by simpa [emptyLog] using h)]
  simp only [entriesAfter, emptyLog, List.nil_append]
  apply List.filter_eq_self.mpr
  intro a ha
  rcases List.mem_map.mp ha with ⟨q, hq, rfl⟩
  have := withPositions_fst_ge es 1 q hq
  simpa using Nat.lt_of_lt_of_le Nat.zero_lt_one this

/-- C8 counterexample: consumer `c1` receives the only group-delivered
event and keeps iterating without ever issuing any acknowledgment — the
consumer has no ack operation at all — yet the pending-inspection query
lists nothing for `c1`: `consume` acknowledged the event itself the moment
the iteration was resumed, so an event the consumer never acknowledged
does not remain in the pending set. -/
theorem consume_auto_ack_cex :
    (consume (publishAll emptyLog [eA]).1 freshGroup "c1" 2).1 = [(1, eA)] ∧
    (consume (publishAll emptyLog [eA]).1 freshGroup "c1" 2).2.pel = [] ∧
    get_pending_events
      (consume (publishAll emptyLog [eA]).1 freshGroup "c1" 2).2 10 false = [] := by
  decide

/-- C8 amended: `consume` acknowledges each yielded event itself as soon as
the consumer resumes the iteration. For a fresh group over a log of at most
10 published events (one `count=10` read batch) and a consumer that takes
`r ≥ 1` events: the consumer receives the first `r` entries, and the
pending set afterwards holds exactly the batch entries from the `r`-th one
on — the whole batch was marked pending at read time and the first `r - 1`
were auto-acknowledged — so it is empty whenever the consumer iterates past
the end of the batch. -/
theorem consume_self_acks (es : List EventData) (c : String) (r : Nat)
    (hlen : es.length ≤ 10) (hr : 1 ≤ r) :
    (consume (publishAll emptyLog es).1 freshGroup c r).1 =
      (withPositions 1 es).take r ∧
    (consume (publishAll emptyLog es).1 freshGroup c r).2.pel =
      ((withPositions 1 es).drop (r - 1)).map fun q => (q.1, c) := by
  have hM : es.length ≤ MAXLEN := hlen.trans (by decide)
  have hE := entriesAfter_publishAll_zero es hM
  have hr0 : ¬ r = 0 := by omega
  have htake : (okRaw (withPositions 1 es)).take 10 = okRaw (withPositions 1 es) :=
    List.take_of_length_le (by rw [okRaw_length, withPositions_length]; exact hlen)
  have hsteps := consumeSteps_okRaw (withPositions 1 es) r hr
  have hnd : ((withPositions 1 es).map Prod.fst).Nodup := by
    rw [withPositions_map_fst]
    exact List.nodup_range' 1 es.length
  have hfilter := pel_filter_drop c (withPositions 1 es) (r - 1) hnd
  unfold consume
  rw [if_neg hr0]
  simp only [freshGroup, hE, htake, hsteps]
  refine ⟨trivial, ?_⟩
  simp only [List.nil_append, okRaw, List.map_map]
  exact hfilter

/-- C9 counterexample: with one entry pending, the pending query under a
transport error returns the empty list — exactly the value it returns for a
group with nothing pending — instead of surfacing the error: the
`RedisError` is logged and swallowed, changing the correctness of the
result. -/
theorem pending_error_swallowed_cex :
    get_pending_events ⟨[(1, "c1")], 1⟩ 10 true = [] ∧
    get_pending_events freshGroup 10 false = [] := by
  decide

/-- C9 amended: a transport error during the pending-entries query is
caught, logged and reported as an empty list, indistinguishable from a
group with no pending entries; it is not surfaced to the caller as an
error. -/
theorem pending_error_returns_empty (g : GroupState) (count : Nat) :
    get_pending_events g count true = [] := rfl

/-- C10: `tasks/get` with `historyLength = n ≥ 1` returns exactly the last
`min n (length of history)` messages of the task's history, and
`historyLength = 0` returns the entire history — the slice `history[-0:]`
is `history[0:]`, the whole list — identical to omitting `historyLength`,
not an empty list. -/
theorem tasks_get_history_slice (t : TaskRec) (n : Nat) (hn : 1 ≤ n) :
    handle_tasks_get (some t) (some (n : Int)) =
      GetResult.ok { t with history := t.history.drop (t.history.length - n) } ∧
    (t.history.drop (t.history.length - n)).length = min n t.history.length ∧
    handle_tasks_get (some t) (some 0) = GetResult.ok t ∧
    handle_tasks_get (some t) (some 0) = handle_tasks_get (some t) none := by
  refine ⟨?_, ?_, ?_, ?_⟩
  · simp only [handle_tasks_get, pySliceFrom]
    have hneg : (-(n : Int)) < 0 := by omega
    rw [if_pos hneg]
    have htn : (max ((t.history.length : Int) + -(n : Int)) 0).toNat =
        t.history.length - n := by omega
    rw [htn]
  · rw [List.length_drop]; omega
  · simp [handle_tasks_get, pySliceFrom]
  · simp [handle_tasks_get, pySliceFrom]

/-- C10 witness: `historyLength = 1` on a task with a one-message
history. -/
theorem tasks_get_history_slice_witness :
    (1 ≤ 1) ∧
    handle_tasks_get (some completedTask) (some ((1 : Nat) : Int)) =
      GetResult.ok
        { completedTask with
          history := completedTask.history.drop (completedTask.history.length - 1) } :=
  ⟨by decide, (tasks_get_history_slice completedTask 1 (by decide)).1⟩

/-- C8 amended witness: two events, consumer takes one. -/
theorem consume_self_acks_witness :
    ([eA, eB].length ≤ 10) ∧ (1 ≤ 1) ∧
    (consume (publishAll emptyLog [eA, eB]).1 freshGroup "c1" 1).2.pel =
      ((withPositions 1 [eA, eB]).drop 0).map fun q => (q.1, "c1") :=
  ⟨by decide, by decide, (consume_self_acks [eA, eB] "c1" 1 (by decide) (by decide)).2⟩

end BoltEvents
